import Mathlib

/-!
Process record generator (`process_generator.c`).

A shallow embedding of `generate_random_byte`, `generate_process` and `main`
and the properties of the record format they write.

Conventions of the embedding

* `rand : Nat → Nat` is the sequence of values returned by successive calls of
  the C library function `rand()` (they are never negative); the field `next`
  of the state counts the calls made so far, so the next call returns
  `rand next`.
* A C `int` expression is an `Int`; an `unsigned char` is a `Nat` obtained by
  the conversion `toUChar` (reduction modulo 256).
* The text file is the list of characters written to it, the binary file the
  list of bytes written to it. `fprintf` and `fwrite` append.
* A run of `main` takes the outcomes of its `fopen` calls as the parameter
  `opens` and acts on a disk that maps file names to contents.
* The write calls of a function are also given one by one, as a list in the
  order of the source, to speak of what has been passed to the two streams
  after each call. The streams are buffered: what a list holds after some of
  the calls need not be on disk before `fclose`.
* Writes that fail are calls of `fprintf` or `fwrite` that return an error;
  `ok` gives the outcome of each write call by its number.
-/

namespace ProcessGenerator

/-! ## Embedding of the source -/

/-- The two open files of one process together with the position in the
sequence of `rand()` values. -/
structure Sinks where
  /-- Number of calls of `rand()` made so far. -/
  next : Nat
  /-- Characters written to `text_file`. -/
  text : List Char
  /-- Bytes written to `binary_file`. -/
  binary : List Nat
  deriving DecidableEq, Repr

/-- Conversion of an `int` value to `unsigned char`. -/
def toUChar (v : Int) : Nat := (v % 256).toNat

/-- The uppercase hexadecimal digit of a value below sixteen, as printed by the
conversion `%X`. -/
def hexDigit (d : Nat) : Char :=
  if d < 10 then Char.ofNat (48 + d) else Char.ofNat (55 + d)

/-- Digits of `v` in base sixteen, most significant first, put in front of
`acc`; `fuel` bounds the number of digits. -/
def hexDigitsAux : Nat → Nat → List Char → List Char
  | 0, _, acc => acc
  | fuel + 1, v, acc =>
    if v / 16 = 0 then hexDigit (v % 16) :: acc
    else hexDigitsAux fuel (v / 16) (hexDigit (v % 16) :: acc)

/-- Uppercase hexadecimal numeral of `v` without padding (`%X`). -/
def hexUpper (v : Nat) : List Char := hexDigitsAux (v + 1) v []

/-- The characters `printf` produces for the conversion `%02X` applied to the
`int` argument `v`: the argument is read as an `unsigned int`, printed in
uppercase hexadecimal and padded with zeros on the left to a width of at least
two. -/
def fmt02X (v : Int) : List Char :=
  let ds := hexUpper (v % 4294967296).toNat
  List.replicate (2 - ds.length) '0' ++ ds

/-- A call `fprintf(text_file, ...)` whose formatted output is `cs`. -/
def fprintf (s : Sinks) (cs : List Char) : Sinks :=
  { s with text := s.text ++ cs }

/-- A call `fwrite(buf, sizeof(unsigned char), n, binary_file)` where `buf`
holds the `n` bytes `bytes`. -/
def fwrite (s : Sinks) (bytes : List Nat) : Sinks :=
  { s with binary := s.binary ++ bytes }

/-- `generate_random_byte(text_file, binary_file)`. -/
def generate_random_byte (rand : Nat → Nat) (s : Sinks) : Sinks :=
  let byte := toUChar ((rand s.next : Int) % 256)
  let s := { s with next := s.next + 1 }
  let s := fprintf s (fmt02X (byte : Int) ++ [' '])
  fwrite s [byte]

/-- The loop `for (int i = 0; i < size; i++) generate_random_byte(...)`, by
recursion on the number of iterations still to run. -/
def generate_bytes (rand : Nat → Nat) : Nat → Sinks → Sinks
  | 0, s => s
  | n + 1, s => generate_bytes rand n (generate_random_byte rand s)

/-- The expression `(size >> 8) & 0xFF`. -/
def sizeHigh (size : Int) : Int := Int.land (Int.shiftRight size 8) 0xFF

/-- The expression `size & 0xFF`. -/
def sizeLow (size : Int) : Int := Int.land size 0xFF

/-- `generate_process(text_file, binary_file, code_size, data_size)`. A loop
with bound `size` runs `size.toNat` times (not at all when `size` is
negative). -/
def generate_process (rand : Nat → Nat) (s : Sinks) (code_size data_size : Int) : Sinks :=
  let process_id := toUChar ((rand s.next : Int) % 256)
  let s := { s with next := s.next + 1 }
  let s := fprintf s (fmt02X (process_id : Int) ++ [' '])
  let s := fwrite s [process_id]
  -- Code segment size
  let s := fprintf s (fmt02X (sizeHigh code_size) ++ [' '] ++ fmt02X (sizeLow code_size) ++ [' '])
  let s := fwrite s [toUChar (sizeHigh code_size), toUChar (sizeLow code_size)]
  -- Code data
  let s := generate_bytes rand code_size.toNat s
  -- Data segment size
  let s := fprintf s (fmt02X (sizeHigh data_size) ++ [' '] ++ fmt02X (sizeLow data_size) ++ [' '])
  let s := fwrite s [toUChar (sizeHigh data_size), toUChar (sizeLow data_size)]
  -- Data data
  let s := generate_bytes rand data_size.toNat s
  -- End marker
  let s := fprintf s ['F', 'F', '\n']
  fwrite s [0xFF]

/-- State of a process whose two files have just been opened (both empty),
after `k` calls of `rand()`. -/
def fresh (k : Nat) : Sinks := { next := k, text := [], binary := [] }

/-! ## Reference notions of the specification -/

/-- The `n` bytes obtained from the `n` values `rand()` returns from call
number `k` on, each reduced modulo 256, in the order in which they are drawn. -/
def randomBytes (rand : Nat → Nat) (k n : Nat) : List Nat :=
  (List.range n).map (fun i => rand (k + i) % 256)

/-- The two-character uppercase hexadecimal representation of a byte, zero
padded: the digit of the high four bits, then the digit of the low four bits. -/
def hexToken (b : Nat) : List Char := [hexDigit (b / 16), hexDigit (b % 16)]

/-- The text form of a run of bytes that is not the end of a record: for each
byte its hexadecimal token followed by one space. -/
def hexText (bs : List Nat) : List Char := bs.flatMap (fun b => hexToken b ++ [' '])

/-- The low sixteen bits of a length as two bytes, most significant first. -/
def bigEndian16 (n : Nat) : List Nat := [n / 256 % 256, n % 256]

/-- The binary layout of one record as the specification gives it: the id, the
big-endian length of the code and the code, the big-endian length of the data
and the data, the end marker. -/
def recordLayout (id : Nat) (code data : List Nat) : List Nat :=
  [id] ++ bigEndian16 code.length ++ code ++ bigEndian16 data.length ++ data ++ [0xFF]

/-- What a decoded record consists of. -/
structure ProcessRecord where
  process_id : Nat
  code_segment : List Nat
  data_segment : List Nat
  deriving DecidableEq, Repr

/-- Reference decoder, following the words of the specification (the source has
no decoder): read one id byte, a big-endian 16-bit length and that many code
bytes, a big-endian 16-bit length and that many data bytes, and a final byte
that must be `0xFF`. The result is the record and the bytes left unread; the
decoder fails when the stream ends early or the final byte is not `0xFF`. -/
def decode_record (stream : List Nat) : Option (ProcessRecord × List Nat) :=
  match stream with
  | id :: chi :: clo :: afterCodeLen =>
    let n := 256 * chi + clo
    if afterCodeLen.length < n then none
    else
      match afterCodeLen.drop n with
      | dhi :: dlo :: afterDataLen =>
        let m := 256 * dhi + dlo
        if afterDataLen.length < m then none
        else
          match afterDataLen.drop m with
          | marker :: rest =>
            if marker = 0xFF then
              some (⟨id, afterCodeLen.take n, afterDataLen.take m⟩, rest)
            else none
          | [] => none
      | _ => none
  | _ => none

/-- The characters that separate tokens in the text file. -/
def isSeparator (c : Char) : Bool := c == ' ' || c == '\n'

/-- Value of one uppercase hexadecimal digit. -/
def hexValue (c : Char) : Option Nat :=
  if 48 ≤ c.toNat ∧ c.toNat ≤ 57 then some (c.toNat - 48)
  else if 65 ≤ c.toNat ∧ c.toNat ≤ 70 then some (c.toNat - 55)
  else none

/-- Reading a token of exactly two hexadecimal digits as a byte. -/
def readToken : List Char → Option Nat
  | [h, l] =>
    match hexValue h, hexValue l with
    | some a, some b => some (16 * a + b)
    | _, _ => none
  | _ => none

/-- Reading every token of a list; fails as soon as one token is not a byte. -/
def readTokens : List (List Char) → Option (List Nat)
  | [] => some []
  | t :: ts =>
    match readToken t, readTokens ts with
    | some b, some bs => some (b :: bs)
    | _, _ => none

/-- The bytes a text file denotes: split it on spaces and newlines, keep the
non-empty pieces as tokens, read each token as a two-digit hexadecimal byte. -/
def textToBytes (t : List Char) : Option (List Nat) :=
  readTokens ((t.splitOnP isSeparator).filter (fun piece => !piece.isEmpty))

/-- The bytes a call appended to the binary file: what follows the bytes that
were in the file before the call. -/
def written (before after : Sinks) : List Nat := after.binary.drop before.binary.length

/-- The code length field of a record: the two bytes at offsets 1 and 2. -/
def codeLengthField (record : List Nat) : List Nat := (record.drop 1).take 2

/-- The data length field of a record whose code segment has `n` bytes: the two
bytes at offsets `3 + n` and `4 + n`. -/
def dataLengthField (record : List Nat) (n : Nat) : List Nat := (record.drop (3 + n)).take 2

/-- The `rand()` values of the concrete scenario: 7, 1, 2 and then zeros. -/
def scenarioRand : Nat → Nat := fun i => [0x07, 0x01, 0x02].getD i 0

/-- A sample sequence of `rand()` values: 300, 307, 314, ... -/
def sampleRand : Nat → Nat := fun i => 300 + 7 * i

/-- Errors an encoder of the record format could report. -/
inductive EncodeError where
  | InvalidLength
  deriving DecidableEq, Repr

/-- Outcome of a call of `generate_process` as its caller sees it. The function
is declared `void`; it has no `return`, no test of its arguments and no call
that ends the program, and both loops terminate, so every call runs through to
the end marker and there is no error result. -/
def generate_process_outcome (rand : Nat → Nat) (s : Sinks) (code_size data_size : Int) :
    Except EncodeError Sinks :=
  Except.ok (generate_process rand s code_size data_size)

/-! ## Embedding of `main` -/

/-- Content of a file on disk: the characters of a file opened with mode `"w"`
or the bytes of a file opened with mode `"wb"`. -/
inductive FileData where
  | text (cs : List Char)
  | binary (bytes : List Nat)
  deriving DecidableEq, Repr

/-- One call `generate_process(text_file, binary_file, code_size, data_size)`
made by `main`: the process number `i + 1`, the number of `rand()` calls made
before it, and the two sizes passed. -/
structure ProcessCall where
  process : Nat
  rand_before : Nat
  code_size : Int
  data_size : Int
  deriving DecidableEq, Repr

/-- What a run of `main` acts on: the position in the sequence of `rand()`
values, the files on disk by name, the names of the files opened so far and
the calls of `generate_process` made so far. Console output is left out. -/
structure World where
  next : Nat
  files : String → Option FileData
  opened : List String
  calls : List ProcessCall

/-- The world at the start of `main`: no `rand()` call made, the disk holding
`disk`, nothing opened and nothing generated yet. -/
def World.start (disk : String → Option FileData) : World :=
  { next := 0, files := disk, opened := [], calls := [] }

/-- `sprintf(text_filename, "processes/p%d.txt", i + 1)`. -/
def text_filename (i : Nat) : String := "processes/p" ++ toString (i + 1) ++ ".txt"

/-- `sprintf(binary_filename, "processes/p%d.proc", i + 1)`. -/
def binary_filename (i : Nat) : String := "processes/p" ++ toString (i + 1) ++ ".proc"

/-- A call `fopen(name, "w")` or `fopen(name, "wb")` whose outcome is `ok`: a
successful call creates the file or truncates it, so that it holds `empty`; a
failed call (result `NULL`) leaves the disk as it is. -/
def fopen (ok : Bool) (w : World) (name : String) (empty : FileData) : World :=
  if ok then
    { w with
      files := fun n => if n = name then some empty else w.files n
      opened := w.opened ++ [name] }
  else w

/-- The expression `16 + rand() % 64` for the `rand()` value `r`. -/
def main_code_size (r : Nat) : Int := 16 + (r : Int) % 64

/-- The expression `64 + rand() % 128` for the `rand()` value `r`. -/
def main_data_size (r : Nat) : Int := 64 + (r : Int) % 128

/-- One iteration of the loop of `main`, for the loop variable `i`;
`opens i` tells whether the `fopen` of the text file and the `fopen` of the
binary file succeed. When one of them fails the iteration ends at `continue`
without any `rand()` call. Otherwise the two sizes are drawn, the record is
generated into the two empty files, and the files are closed. -/
def main_iteration (rand : Nat → Nat) (opens : Nat → Bool × Bool) (i : Nat) (w : World) : World :=
  let w := fopen (opens i).1 w (text_filename i) (FileData.text [])
  let w := fopen (opens i).2 w (binary_filename i) (FileData.binary [])
  if (opens i).1 = false ∨ (opens i).2 = false then
    w
  else
    let code_size := main_code_size (rand w.next)
    let data_size := main_data_size (rand (w.next + 1))
    let out := generate_process rand (fresh (w.next + 2)) code_size data_size
    { next := out.next
      files := fun n =>
        if n = binary_filename i then some (FileData.binary out.binary)
        else if n = text_filename i then some (FileData.text out.text)
        else w.files n
      opened := w.opened
      calls := w.calls ++ [⟨i + 1, w.next + 2, code_size, data_size⟩] }

/-- The loop `for (int i = ...; i < num_processes; i++)` with `n` iterations
still to run, the next one for the loop variable `i`. -/
def main_loop (rand : Nat → Nat) (opens : Nat → Bool × Bool) : Nat → Nat → World → World
  | 0, _, w => w
  | n + 1, i, w => main_loop rand opens n (i + 1) (main_iteration rand opens i w)

/-- `int num_processes = 5;` -/
def num_processes : Nat := 5

/-- A run of `main`: the world when it returns, and its exit status
(`return 0`). -/
def main (rand : Nat → Nat) (opens : Nat → Bool × Bool) (w : World) : World × Int :=
  (main_loop rand opens num_processes 0 w, 0)

/-- The record written for a call of `generate_process` made by `main`. -/
def ProcessCall.output (rand : Nat → Nat) (c : ProcessCall) : Sinks :=
  generate_process rand (fresh c.rand_before) c.code_size c.data_size

/-- Whether both files of the iteration `i` open. -/
def bothOpen (opens : Nat → Bool × Bool) (i : Nat) : Bool := (opens i).1 && (opens i).2

/-- Open outcomes in which every `fopen` succeeds. -/
def allOpen : Nat → Bool × Bool := fun _ => (true, true)

/-- Open outcomes in which the binary file of the second process and the text
file of the fifth process fail to open. -/
def sampleOpens : Nat → Bool × Bool := fun i =>
  if i = 1 then (true, false) else if i = 4 then (false, true) else (true, true)

/-- A disk without files. -/
def emptyDisk : String → Option FileData := fun _ => none

/-! ## The write calls one by one -/

/-- One call that writes to one of the two files: `fprintf(text_file, ...)`
with its formatted output, or `fwrite(..., binary_file)` with its bytes. -/
inductive WriteCall where
  | toText (cs : List Char)
  | toBinary (bytes : List Nat)
  deriving DecidableEq, Repr

/-- Effect of one write call that succeeds. -/
def WriteCall.perform (s : Sinks) : WriteCall → Sinks
  | WriteCall.toText cs => fprintf s cs
  | WriteCall.toBinary bytes => fwrite s bytes

/-- The write calls of `generate_random_byte`, in the order of the source, when
`k` calls of `rand()` came before. -/
def generate_random_byte_calls (rand : Nat → Nat) (k : Nat) : List WriteCall :=
  let byte := toUChar ((rand k : Int) % 256)
  [WriteCall.toText (fmt02X (byte : Int) ++ [' ']), WriteCall.toBinary [byte]]

/-- The write calls of the loop `for (int i = 0; i < size; i++)
generate_random_byte(...)` with `n` iterations to run. -/
def generate_bytes_calls (rand : Nat → Nat) : Nat → Nat → List WriteCall
  | 0, _ => []
  | n + 1, k => generate_random_byte_calls rand k ++ generate_bytes_calls rand n (k + 1)

/-- The write calls of `generate_process`, in the order of the source, when `k`
calls of `rand()` came before. -/
def generate_process_calls (rand : Nat → Nat) (k : Nat) (code_size data_size : Int) :
    List WriteCall :=
  let process_id := toUChar ((rand k : Int) % 256)
  [WriteCall.toText (fmt02X (process_id : Int) ++ [' ']), WriteCall.toBinary [process_id]]
    -- Code segment size
    ++ [WriteCall.toText
          (fmt02X (sizeHigh code_size) ++ [' '] ++ fmt02X (sizeLow code_size) ++ [' ']),
        WriteCall.toBinary [toUChar (sizeHigh code_size), toUChar (sizeLow code_size)]]
    -- Code data
    ++ generate_bytes_calls rand code_size.toNat (k + 1)
    -- Data segment size
    ++ [WriteCall.toText
          (fmt02X (sizeHigh data_size) ++ [' '] ++ fmt02X (sizeLow data_size) ++ [' ']),
        WriteCall.toBinary [toUChar (sizeHigh data_size), toUChar (sizeLow data_size)]]
    -- Data data
    ++ generate_bytes_calls rand data_size.toNat (k + 1 + code_size.toNat)
    -- End marker
    ++ [WriteCall.toText ['F', 'F', '\n'], WriteCall.toBinary [0xFF]]

/-- The streams after the given write calls, all of them successful: what they
held before, followed by what the calls passed to them. -/
def performAll (s : Sinks) (calls : List WriteCall) : Sinks :=
  calls.foldl WriteCall.perform s

/-- What the first `n` write calls of a call of `generate_process` have passed
to the two streams, both empty before the call: the characters given to
`fprintf` and the bytes given to `fwrite` so far, in order. This is not the
content of the files on disk at that moment: `main` leaves both streams
buffered and never calls `fflush`, so the data reach the files in blocks and
at `fclose`. -/
def generate_process_passed (rand : Nat → Nat) (n k : Nat) (code_size data_size : Int) : Sinks :=
  performAll (fresh k) ((generate_process_calls rand k code_size data_size).take n)

/-- The hexadecimal tokens of a text: its non-empty pieces between spaces and
newlines. -/
def tokens (t : List Char) : List (List Char) :=
  (t.splitOnP isSeparator).filter (fun piece => !piece.isEmpty)

/-- The write calls that write the bytes chunk by chunk: for each chunk one
`fprintf` of the tokens of its bytes, then one `fwrite` of its bytes. -/
def chunkCalls (chunks : List (List Nat)) : List WriteCall :=
  chunks.flatMap (fun ch => [WriteCall.toText (hexText ch), WriteCall.toBinary ch])

/-! ## Writes that fail -/

end ProcessGenerator

namespace ProcessGenerator

/-! ## Arithmetic of the byte expressions -/

theorem land_255_eq_emod (n : Int) : Int.land n 255 = n % 256 := by
  cases n with
  | ofNat m =>
    show ((m &&& 255 : Nat) : Int) = (m : Int) % 256
    have hm := Nat.and_pow_two_sub_one_eq_mod m 8
    norm_num at hm
    rw [hm]; norm_cast
  | negSucc m =>
    show ((Nat.ldiff 255 m : Nat) : Int) = Int.negSucc m % 256
    rw [Int.negSucc_emod m (by norm_num)]
    have h : Nat.ldiff 255 m = 255 - m % 256 := by
      apply Nat.eq_of_testBit_eq
      intro i
      have h1 := Nat.testBit_two_pow_sub_succ (x := m % 256) (n := 8) (by omega) i
      have h2 := Nat.testBit_two_pow_sub_one 8 i
      have h3 := Nat.testBit_mod_two_pow m 8 i
      norm_num at h1 h2 h3
      rw [Nat.testBit_ldiff, show 255 - m % 256 = 256 - (m % 256 + 1) by omega, h1, h2, h3]
      by_cases hi : i < 8 <;> simp [hi]
    rw [h]
    omega

theorem sizeLow_eq (n : Int) : sizeLow n = n % 256 := land_255_eq_emod n

theorem sizeHigh_eq (n : Int) : sizeHigh n = n / 256 % 256 := by
  unfold sizeHigh
  rw [show (0xFF : Int) = 255 from rfl, land_255_eq_emod]
  have h := Int.shiftRight_eq_div_pow n 8
  rw [Int.shiftRight_eq] at h
  rw [h]
  norm_num

theorem sizeLow_range (n : Int) : 0 ≤ sizeLow n ∧ sizeLow n < 256 := by
  rw [sizeLow_eq]; omega

theorem sizeHigh_range (n : Int) : 0 ≤ sizeHigh n ∧ sizeHigh n < 256 := by
  rw [sizeHigh_eq]; omega

theorem toUChar_lt (v : Int) : toUChar v < 256 := by
  unfold toUChar; omega

theorem toUChar_rand (r : Nat) : toUChar ((r : Int) % 256) = r % 256 := by
  unfold toUChar; omega

theorem toUChar_sizeLow (n : Nat) : toUChar (sizeLow (n : Int)) = n % 256 := by
  rw [sizeLow_eq]; unfold toUChar; omega

theorem toUChar_sizeHigh (n : Nat) : toUChar (sizeHigh (n : Int)) = n / 256 % 256 := by
  rw [sizeHigh_eq]; unfold toUChar; omega

/-! ## The conversion `%02X` on byte values -/

theorem hexUpper_byte (b : Nat) (h : b < 256) :
    hexUpper b = if b / 16 = 0 then [hexDigit (b % 16)] else hexToken b := by
  unfold hexUpper hexToken
  rw [hexDigitsAux]
  by_cases h0 : b / 16 = 0
  · simp [h0]
  · simp only [h0, if_false]
    obtain ⟨b', rfl⟩ : ∃ b', b = b' + 1 := ⟨b - 1, by omega⟩
    rw [hexDigitsAux]
    have h1 : (b' + 1) / 16 / 16 = 0 := by omega
    have h2 : (b' + 1) / 16 % 16 = (b' + 1) / 16 := by omega
    simp [h1, h2]

theorem fmt02X_byte (b : Nat) (h : b < 256) : fmt02X (b : Int) = hexToken b := by
  unfold fmt02X
  have hb : ((b : Int) % 4294967296).toNat = b := by omega
  simp only [hb]
  rw [hexUpper_byte b h]
  by_cases h0 : b / 16 = 0
  · simp [h0, hexToken, hexDigit]
  · simp [h0, hexToken]

theorem fmt02X_int_byte (v : Int) (h : 0 ≤ v ∧ v < 256) : fmt02X v = hexToken (toUChar v) := by
  obtain ⟨b, rfl⟩ : ∃ b : Nat, v = (b : Int) := ⟨v.toNat, by omega⟩
  have hb : toUChar (b : Int) = b := by unfold toUChar; omega
  rw [hb]
  exact fmt02X_byte b (by omega)

/-! ## Closed forms of the generator -/

theorem randomBytes_zero (rand : Nat → Nat) (k : Nat) : randomBytes rand k 0 = [] := rfl

theorem randomBytes_succ (rand : Nat → Nat) (k n : Nat) :
    randomBytes rand k (n + 1) = (rand k % 256) :: randomBytes rand (k + 1) n := by
  unfold randomBytes
  rw [List.range_succ_eq_map]
  simp only [List.map_cons, List.map_map, Nat.add_zero]
  congr 1
  apply List.map_congr_left
  intro i _
  simp only [Function.comp_apply]
  congr 2
  omega

theorem randomBytes_length (rand : Nat → Nat) (k n : Nat) :
    (randomBytes rand k n).length = n := by
  simp [randomBytes]

theorem randomBytes_lt (rand : Nat → Nat) (k n : Nat) :
    ∀ b ∈ randomBytes rand k n, b < 256 := by
  intro b hb
  simp only [randomBytes, List.mem_map] at hb
  obtain ⟨i, _, rfl⟩ := hb
  exact Nat.mod_lt _ (by norm_num)

theorem hexText_nil : hexText [] = [] := rfl

theorem hexText_cons (b : Nat) (bs : List Nat) :
    hexText (b :: bs) = hexToken b ++ [' '] ++ hexText bs := by
  simp [hexText]

theorem hexText_append (as bs : List Nat) : hexText (as ++ bs) = hexText as ++ hexText bs := by
  simp [hexText]

theorem generate_random_byte_eq (rand : Nat → Nat) (s : Sinks) :
    generate_random_byte rand s =
      { next := s.next + 1,
        text := s.text ++ (hexToken (rand s.next % 256) ++ [' ']),
        binary := s.binary ++ [rand s.next % 256] } := by
  unfold generate_random_byte fprintf fwrite
  simp only [toUChar_rand]
  rw [fmt02X_byte _ (Nat.mod_lt _ (by norm_num))]

theorem generate_bytes_eq (rand : Nat → Nat) (n : Nat) (s : Sinks) :
    generate_bytes rand n s =
      { next := s.next + n,
        text := s.text ++ hexText (randomBytes rand s.next n),
        binary := s.binary ++ randomBytes rand s.next n } := by
  induction n generalizing s with
  | zero => simp [generate_bytes, randomBytes_zero, hexText_nil]
  | succ n ih =>
    rw [generate_bytes, ih, generate_random_byte_eq, randomBytes_succ, hexText_cons]
    simp only [List.append_assoc, List.singleton_append, List.cons_append, List.nil_append]
    congr 1
    omega

/-- The bytes `generate_process` appends to the binary file, for arbitrary
`int` sizes, when `k` calls of `rand()` came before. -/
theorem generate_process_binary_eq (rand : Nat → Nat) (s : Sinks) (code_size data_size : Int) :
    (generate_process rand s code_size data_size).binary =
      s.binary ++ ([rand s.next % 256]
        ++ [toUChar (sizeHigh code_size), toUChar (sizeLow code_size)]
        ++ randomBytes rand (s.next + 1) code_size.toNat
        ++ [toUChar (sizeHigh data_size), toUChar (sizeLow data_size)]
        ++ randomBytes rand (s.next + 1 + code_size.toNat) data_size.toNat
        ++ [255]) := by
  unfold generate_process
  simp only [generate_bytes_eq, fprintf, fwrite, toUChar_rand, List.append_assoc]

/-- The characters `generate_process` appends to the text file, for arbitrary
`int` sizes. -/
theorem generate_process_text_eq (rand : Nat → Nat) (s : Sinks) (code_size data_size : Int) :
    (generate_process rand s code_size data_size).text =
      s.text ++ (hexText ([rand s.next % 256]
        ++ [toUChar (sizeHigh code_size), toUChar (sizeLow code_size)]
        ++ randomBytes rand (s.next + 1) code_size.toNat
        ++ [toUChar (sizeHigh data_size), toUChar (sizeLow data_size)]
        ++ randomBytes rand (s.next + 1 + code_size.toNat) data_size.toNat)
        ++ ['F', 'F', '\n']) := by
  unfold generate_process
  simp only [generate_bytes_eq, fprintf, fwrite, toUChar_rand]
  rw [fmt02X_byte _ (Nat.mod_lt _ (by norm_num)),
    fmt02X_int_byte _ (sizeHigh_range code_size), fmt02X_int_byte _ (sizeLow_range code_size),
    fmt02X_int_byte _ (sizeHigh_range data_size), fmt02X_int_byte _ (sizeLow_range data_size)]
  simp only [hexText_append, hexText_cons, hexText_nil, List.append_assoc, List.append_nil,
    List.singleton_append, List.cons_append, List.nil_append]

theorem decode_record_layout_append (id : Nat) (code data rest : List Nat)
    (hc : code.length ≤ 65535) (hd : data.length ≤ 65535) :
    decode_record (recordLayout id code data ++ rest) = some (⟨id, code, data⟩, rest) := by
  have hn : 256 * (code.length / 256 % 256) + code.length % 256 = code.length := by omega
  have hm : 256 * (data.length / 256 % 256) + data.length % 256 = data.length := by omega
  simp only [recordLayout, bigEndian16, List.append_assoc, List.singleton_append,
    List.cons_append, List.nil_append, decode_record, hn]
  rw [if_neg (by simp)]
  simp only [List.drop_left, List.take_left, hm]
  rw [if_neg (by simp)]
  rfl

/-- The bytes written are the record layout of the drawn id, code bytes and data
bytes (with each length reduced to its low sixteen bits). -/
theorem binary_eq_recordLayout (rand : Nat → Nat) (s : Sinks) (code_size data_size : Nat) :
    (generate_process rand s code_size data_size).binary =
      s.binary ++ recordLayout (rand s.next % 256) (randomBytes rand (s.next + 1) code_size)
        (randomBytes rand (s.next + 1 + code_size) data_size) := by
  rw [generate_process_binary_eq]
  simp only [recordLayout, bigEndian16, randomBytes_length, toUChar_sizeHigh,
    toUChar_sizeLow, Int.toNat_ofNat]

/-! ## Reading the text form back -/

theorem hexDigit_not_separator (d : Nat) (h : d < 16) : isSeparator (hexDigit d) = false := by
  interval_cases d <;> rfl

theorem hexDigit_ne_newline (d : Nat) (h : d < 16) : hexDigit d ≠ '\n' := by
  interval_cases d <;> decide

theorem hexValue_hexDigit (d : Nat) (h : d < 16) : hexValue (hexDigit d) = some d := by
  interval_cases d <;> rfl

theorem readToken_hexToken (b : Nat) (h : b < 256) : readToken (hexToken b) = some b := by
  have h1 := hexValue_hexDigit (b / 16) (by omega)
  have h2 := hexValue_hexDigit (b % 16) (by omega)
  simp only [hexToken, readToken, h1, h2, Option.some.injEq]
  omega

theorem hexToken_not_separator (b : Nat) (h : b < 256) :
    ∀ c ∈ hexToken b, ¬ (isSeparator c = true) := by
  intro c hc
  simp only [hexToken, List.mem_cons, List.mem_singleton, List.not_mem_nil, or_false] at hc
  rcases hc with rfl | rfl
  · simp [hexDigit_not_separator _ (show b / 16 < 16 by omega)]
  · simp [hexDigit_not_separator _ (show b % 16 < 16 by omega)]

theorem splitOnP_hexText (bs : List Nat) (hbs : ∀ b ∈ bs, b < 256) (rest : List Char) :
    (hexText bs ++ rest).splitOnP isSeparator = bs.map hexToken ++ rest.splitOnP isSeparator := by
  induction bs with
  | nil => simp [hexText_nil]
  | cons b bs ih =>
    have hb : b < 256 := hbs b (List.mem_cons_self _ _)
    have hrest : ∀ x ∈ bs, x < 256 := fun x hx => hbs x (List.mem_cons_of_mem _ hx)
    rw [hexText_cons]
    simp only [List.append_assoc, List.singleton_append, List.map_cons, List.cons_append]
    rw [List.splitOnP_first isSeparator (hexToken b) (hexToken_not_separator b hb) ' ' rfl,
      List.nil_append, ih hrest]

theorem readTokens_map_hexToken (bs : List Nat) (hbs : ∀ b ∈ bs, b < 256) :
    readTokens (bs.map hexToken) = some bs := by
  induction bs with
  | nil => rfl
  | cons b bs ih =>
    have hb : b < 256 := hbs b (List.mem_cons_self _ _)
    have hrest : ∀ x ∈ bs, x < 256 := fun x hx => hbs x (List.mem_cons_of_mem _ hx)
    simp only [List.map_cons, readTokens, readToken_hexToken b hb, ih hrest]

theorem filter_nonempty_map_hexToken (bs : List Nat) :
    (bs.map hexToken).filter (fun piece => !piece.isEmpty) = bs.map hexToken := by
  rw [List.filter_eq_self]
  intro t ht
  simp only [List.mem_map] at ht
  obtain ⟨b, _, rfl⟩ := ht
  rfl

/-- A text made of the tokens of `bs` each followed by a space, then the token
`FF` and a newline, denotes the bytes `bs` followed by `0xFF`. -/
theorem textToBytes_record (bs : List Nat) (hbs : ∀ b ∈ bs, b < 256) :
    textToBytes (hexText bs ++ ['F', 'F', '\n']) = some (bs ++ [255]) := by
  unfold textToBytes
  rw [splitOnP_hexText bs hbs]
  have hend : (['F', 'F', '\n'] : List Char).splitOnP isSeparator = [hexToken 255, []] := by
    decide
  rw [hend, List.filter_append, filter_nonempty_map_hexToken]
  have hlast : ([hexToken 255, []] : List (List Char)).filter (fun piece => !piece.isEmpty)
      = [255].map hexToken := by decide
  rw [hlast, ← List.map_append]
  apply readTokens_map_hexToken
  intro b hb
  rcases List.mem_append.mp hb with h | h
  · exact hbs b h
  · simp only [List.mem_singleton] at h
    omega

theorem count_newline_hexText (bs : List Nat) (hbs : ∀ b ∈ bs, b < 256) :
    (hexText bs).count '\n' = 0 := by
  rw [List.count_eq_zero]
  intro hmem
  simp only [hexText, List.mem_flatMap, List.mem_append, List.mem_singleton] at hmem
  obtain ⟨b, hb, hc | hc⟩ := hmem
  · have hlt := hbs b hb
    simp only [hexToken, List.mem_cons, List.mem_singleton, List.not_mem_nil, or_false] at hc
    rcases hc with h | h
    · exact hexDigit_ne_newline _ (show b / 16 < 16 by omega) h.symm
    · exact hexDigit_ne_newline _ (show b % 16 < 16 by omega) h.symm
  · exact absurd hc (by decide)

/-- Every byte before the end marker is below 256. -/
theorem generate_process_body_lt (rand : Nat → Nat) (k : Nat) (code_size data_size : Int) :
    ∀ b ∈ [rand k % 256]
        ++ [toUChar (sizeHigh code_size), toUChar (sizeLow code_size)]
        ++ randomBytes rand (k + 1) code_size.toNat
        ++ [toUChar (sizeHigh data_size), toUChar (sizeLow data_size)]
        ++ randomBytes rand (k + 1 + code_size.toNat) data_size.toNat, b < 256 := by
  intro b hb
  simp only [List.mem_append, List.mem_cons, List.mem_singleton, List.not_mem_nil, or_false] at hb
  rcases hb with (((rfl | rfl | rfl) | h) | rfl | rfl) | h
  · exact Nat.mod_lt _ (by norm_num)
  · exact toUChar_lt _
  · exact toUChar_lt _
  · exact randomBytes_lt _ _ _ b h
  · exact toUChar_lt _
  · exact toUChar_lt _
  · exact randomBytes_lt _ _ _ b h

/-! ## Properties of the record format -/

/-- C1: for sizes between 0 and 65535 the bytes `generate_process` appends to
the binary file are exactly the process id (first `rand()` value modulo 256),
the two bytes of `code_size` most significant first, `code_size` code bytes (the
next `rand()` values modulo 256 in draw order), the two bytes of `data_size`
most significant first, `data_size` data bytes (the following `rand()` values
modulo 256 in draw order), and the single byte `0xFF`. -/
theorem generate_process_binary_layout (rand : Nat → Nat) (s : Sinks) (code_size data_size : Nat)
    (hc : code_size ≤ 65535) (hd : data_size ≤ 65535) :
    (generate_process rand s code_size data_size).binary =
      s.binary ++ ([rand s.next % 256]
        ++ [code_size / 256, code_size % 256]
        ++ randomBytes rand (s.next + 1) code_size
        ++ [data_size / 256, data_size % 256]
        ++ randomBytes rand (s.next + 1 + code_size) data_size
        ++ [0xFF]) := by
  rw [generate_process_binary_eq]
  have h1 : code_size / 256 % 256 = code_size / 256 := by omega
  have h2 : data_size / 256 % 256 = data_size / 256 := by omega
  simp only [toUChar_sizeHigh, toUChar_sizeLow, Int.toNat_ofNat, h1, h2]

/-- Instance of C1: sizes 2 and 1 with the sample sequence of `rand()` values. -/
theorem generate_process_binary_layout_witness :
    ((2 : Nat) ≤ 65535 ∧ (1 : Nat) ≤ 65535) ∧
      (generate_process sampleRand (fresh 0) 2 1).binary = [44, 0, 2, 51, 58, 0, 1, 65, 255] :=
  ⟨by decide,
    (generate_process_binary_layout sampleRand (fresh 0) 2 1 (by decide) (by decide)).trans
      (by decide)⟩

/-- C2: for non-negative sizes the number of bytes `generate_process` writes to
the binary file is `6 + code_size + data_size`. -/
theorem generate_process_binary_length (rand : Nat → Nat) (s : Sinks) (code_size data_size : Int)
    (hc : 0 ≤ code_size) (hd : 0 ≤ data_size) :
    ((generate_process rand s code_size data_size).binary.length : Int) =
      s.binary.length + (6 + code_size + data_size) := by
  rw [generate_process_binary_eq]
  simp only [List.length_append, List.length_cons, List.length_nil, randomBytes_length]
  omega

/-- Instance of C2: sizes 3 and 2 on empty files give eleven bytes. -/
theorem generate_process_binary_length_witness :
    ((0 : Int) ≤ 3 ∧ (0 : Int) ≤ 2) ∧
      (((generate_process sampleRand (fresh 0) 3 2).binary.length : Nat) : Int) = 11 :=
  ⟨by decide,
    (generate_process_binary_length sampleRand (fresh 0) 3 2 (by decide) (by decide)).trans
      (by decide)⟩

/-- C3: round trip. For sizes between 0 and 65535 the reference decoder applied
to the binary output of `generate_process` returns exactly the id, the code
bytes and the data bytes that were written, and consumes the whole output. -/
theorem decode_record_generate_process (rand : Nat → Nat) (k : Nat) (code_size data_size : Nat)
    (hc : code_size ≤ 65535) (hd : data_size ≤ 65535) :
    decode_record (generate_process rand (fresh k) code_size data_size).binary =
      some (⟨rand k % 256, randomBytes rand (k + 1) code_size,
        randomBytes rand (k + 1 + code_size) data_size⟩, []) := by
  rw [binary_eq_recordLayout]
  have h := decode_record_layout_append (rand k % 256) (randomBytes rand (k + 1) code_size)
    (randomBytes rand (k + 1 + code_size) data_size) []
    (by rw [randomBytes_length]; exact hc) (by rw [randomBytes_length]; exact hd)
  simpa [fresh] using h

/-- Instance of C3: sizes 2 and 1 with the sample sequence of `rand()` values. -/
theorem decode_record_generate_process_witness :
    ((2 : Nat) ≤ 65535 ∧ (1 : Nat) ≤ 65535) ∧
      decode_record (generate_process sampleRand (fresh 0) 2 1).binary =
        some (⟨44, [51, 58], [65]⟩, []) :=
  ⟨by decide,
    (decode_record_generate_process sampleRand 0 2 1 (by decide) (by decide)).trans (by decide)⟩

/-- C4: for every input, splitting the text output on spaces and the newline
and reading each two-character hexadecimal token as a byte gives the binary
output, byte for byte. -/
theorem textToBytes_generate_process (rand : Nat → Nat) (k : Nat) (code_size data_size : Int) :
    textToBytes (generate_process rand (fresh k) code_size data_size).text =
      some (generate_process rand (fresh k) code_size data_size).binary := by
  rw [generate_process_text_eq, generate_process_binary_eq]
  simp only [fresh, List.nil_append]
  exact textToBytes_record _ (generate_process_body_lt rand k code_size data_size)

/-- C5: for every input the text output is, for every byte of the binary output
but the last, the two-character uppercase hexadecimal token of the byte
followed by one space, and then the token `FF` and one newline; the newline is
the last character and the only newline. -/
theorem generate_process_text_format (rand : Nat → Nat) (k : Nat) (code_size data_size : Int) :
    (generate_process rand (fresh k) code_size data_size).text =
        hexText (generate_process rand (fresh k) code_size data_size).binary.dropLast
          ++ ['F', 'F', '\n']
      ∧ (generate_process rand (fresh k) code_size data_size).text.getLast? = some '\n'
      ∧ (generate_process rand (fresh k) code_size data_size).text.count '\n' = 1 := by
  have hlt := generate_process_body_lt rand k code_size data_size
  rw [generate_process_text_eq, generate_process_binary_eq]
  simp only [fresh, List.nil_append]
  refine ⟨?_, ?_, ?_⟩
  · rw [List.dropLast_concat]
  · rw [show (['F', 'F', '\n'] : List Char) = ['F', 'F'] ++ ['\n'] from rfl, ← List.append_assoc,
      List.getLast?_concat]
  · rw [List.count_append, count_newline_hexText _ hlt]
    decide

/-- C6: `generate_random_byte` draws one `rand()` value `r`, appends the one
byte `r % 256` to the binary file and appends to the text file the two
uppercase hexadecimal digits of that byte (zero padded) followed by one space. -/
theorem generate_random_byte_writes (rand : Nat → Nat) (s : Sinks) :
    (generate_random_byte rand s).binary = s.binary ++ [rand s.next % 256]
      ∧ (generate_random_byte rand s).text = s.text ++ hexToken (rand s.next % 256) ++ [' ']
      ∧ (generate_random_byte rand s).next = s.next + 1
      ∧ rand s.next % 256 < 256
      ∧ (hexToken (rand s.next % 256)).length = 2
      ∧ (hexToken (rand s.next % 256)).all
          (fun c => "0123456789ABCDEF".toList.contains c) = true
      ∧ readToken (hexToken (rand s.next % 256)) = some (rand s.next % 256) := by
  have hb : rand s.next % 256 < 256 := Nat.mod_lt _ (by norm_num)
  rw [generate_random_byte_eq]
  refine ⟨rfl, by simp, rfl, hb, rfl, ?_, readToken_hexToken _ hb⟩
  have hd : ∀ d, d < 16 → "0123456789ABCDEF".toList.contains (hexDigit d) = true := by
    intro d hd
    interval_cases d <;> rfl
  simp only [hexToken, List.all_cons, List.all_nil, Bool.and_true, Bool.and_eq_true]
  exact ⟨hd _ (by omega), hd _ (by omega)⟩

theorem written_generate_process (rand : Nat → Nat) (s : Sinks) (code_size data_size : Nat) :
    written s (generate_process rand s code_size data_size) =
      recordLayout (rand s.next % 256) (randomBytes rand (s.next + 1) code_size)
        (randomBytes rand (s.next + 1 + code_size) data_size) := by
  unfold written
  rw [binary_eq_recordLayout, List.drop_left]

theorem binary_length_nat (rand : Nat → Nat) (s : Sinks)
    (code_size data_size : Nat) :
    (generate_process rand s code_size data_size).binary.length =
      s.binary.length + (6 + code_size + data_size) := by
  rw [binary_eq_recordLayout]
  simp only [recordLayout, bigEndian16, List.length_append, List.length_cons, List.length_nil,
    randomBytes_length]
  omega

theorem written_length (rand : Nat → Nat) (s : Sinks) (code_size data_size : Nat) :
    (written s (generate_process rand s code_size data_size)).length =
      6 + code_size + data_size := by
  unfold written
  rw [List.length_drop, binary_length_nat]
  omega

theorem codeLengthField_recordLayout (id : Nat) (code data : List Nat) :
    codeLengthField (recordLayout id code data) = bigEndian16 code.length := by
  simp [codeLengthField, recordLayout, bigEndian16]

theorem dataLengthField_recordLayout (id : Nat) (code data : List Nat) :
    dataLengthField (recordLayout id code data) code.length = bigEndian16 data.length := by
  have h : recordLayout id code data =
      ([id] ++ bigEndian16 code.length ++ code) ++ (bigEndian16 data.length ++ (data ++ [0xFF])) := by
    simp [recordLayout]
  have hlen : ([id] ++ bigEndian16 code.length ++ code).length = 3 + code.length := by
    simp [bigEndian16]; omega
  rw [dataLengthField, h, ← hlen, List.drop_left]
  simp [bigEndian16]

/-- C7: for segment lengths between 0 and 65535 the two length bytes written for
each segment, high byte first, are both in 0..255 and satisfy
`256 * hi + lo = length`; a code length of 0 is written as `00 00` directly
followed by the data length field, a data length of 0 as `00 00` directly
followed by the end marker. -/
theorem length_fields_big_endian (rand : Nat → Nat) (s : Sinks) (code_size data_size : Nat)
    (hc : code_size ≤ 65535) (hd : data_size ≤ 65535) :
    (∃ chi clo dhi dlo : Nat,
        codeLengthField (written s (generate_process rand s code_size data_size)) = [chi, clo]
        ∧ 256 * chi + clo = code_size ∧ chi < 256 ∧ clo < 256
        ∧ dataLengthField (written s (generate_process rand s code_size data_size)) code_size
            = [dhi, dlo]
        ∧ 256 * dhi + dlo = data_size ∧ dhi < 256 ∧ dlo < 256)
      ∧ written s (generate_process rand s (0 : Nat) data_size) =
          [rand s.next % 256, 0, 0] ++ [data_size / 256, data_size % 256]
            ++ randomBytes rand (s.next + 1) data_size ++ [0xFF]
      ∧ written s (generate_process rand s code_size (0 : Nat)) =
          [rand s.next % 256] ++ [code_size / 256, code_size % 256]
            ++ randomBytes rand (s.next + 1) code_size ++ [0, 0, 0xFF] := by
  have h1 : code_size / 256 % 256 = code_size / 256 := by omega
  have h2 : data_size / 256 % 256 = data_size / 256 := by omega
  refine ⟨⟨code_size / 256, code_size % 256, data_size / 256, data_size % 256, ?_, by omega,
    by omega, by omega, ?_, by omega, by omega, by omega⟩, ?_, ?_⟩
  · rw [written_generate_process, codeLengthField_recordLayout, randomBytes_length, bigEndian16, h1]
  · have h := dataLengthField_recordLayout (rand s.next % 256)
      (randomBytes rand (s.next + 1) code_size)
      (randomBytes rand (s.next + 1 + code_size) data_size)
    rw [randomBytes_length, randomBytes_length] at h
    rw [written_generate_process, h, bigEndian16, h2]
  · rw [written_generate_process]
    simp [recordLayout, bigEndian16, randomBytes_length, randomBytes_zero, h2]
  · rw [written_generate_process]
    simp [recordLayout, bigEndian16, randomBytes_length, randomBytes_zero, h1]

/-- Instance of C7: code length 0 and data length 2. -/
theorem length_fields_big_endian_witness :
    ((0 : Nat) ≤ 65535 ∧ (2 : Nat) ≤ 65535) ∧
      written (fresh 0) (generate_process sampleRand (fresh 0) (0 : Nat) (2 : Nat)) =
        [44, 0, 0, 0, 2, 51, 58, 255] :=
  ⟨by decide,
    (length_fields_big_endian sampleRand (fresh 0) 0 2 (by decide) (by decide)).2.1.trans
      (by decide)⟩

/-- C8, as the claim states it, fails: with a code length of 65536 the call
does not end in an `InvalidLength` error; it completes, writes the length field
`00 00` and all 65536 code bytes. -/
theorem oversized_length_not_rejected :
    generate_process_outcome sampleRand (fresh 0) (65536 : Nat) (0 : Nat)
        ≠ Except.error EncodeError.InvalidLength
      ∧ codeLengthField (generate_process sampleRand (fresh 0) (65536 : Nat) (0 : Nat)).binary
          = [0, 0]
      ∧ (generate_process sampleRand (fresh 0) (65536 : Nat) (0 : Nat)).binary.length = 65542 := by
  refine ⟨?_, ?_, ?_⟩
  · intro h
    cases h
  · have h := written_generate_process sampleRand (fresh 0) 65536 0
    rw [written, show (fresh 0).binary.length = 0 from rfl, List.drop_zero] at h
    rw [h, codeLengthField_recordLayout, randomBytes_length]
    decide
  · rw [binary_length_nat]
    rfl

/-- C8 amended: a segment length of exactly 65535 is written as the length
bytes `FF FF`; for a segment length `n` of 65536 or more the call does not fail:
it completes, the length field holds the two bytes of `n` modulo 65536 (a
value smaller than `n`) and all `n` bytes of the segment are written. -/
theorem length_boundary (rand : Nat → Nat) (s : Sinks) (other n : Nat) (hn : 65536 ≤ n) :
    codeLengthField (written s (generate_process rand s (65535 : Nat) other)) = [0xFF, 0xFF]
      ∧ dataLengthField (written s (generate_process rand s other (65535 : Nat))) other
          = [0xFF, 0xFF]
      ∧ generate_process_outcome rand s n other = Except.ok (generate_process rand s n other)
      ∧ generate_process_outcome rand s other n = Except.ok (generate_process rand s other n)
      ∧ codeLengthField (written s (generate_process rand s n other))
          = [n % 65536 / 256, n % 65536 % 256]
      ∧ dataLengthField (written s (generate_process rand s other n)) other
          = [n % 65536 / 256, n % 65536 % 256]
      ∧ (written s (generate_process rand s n other)).length = 6 + n + other
      ∧ (written s (generate_process rand s other n)).length = 6 + other + n
      ∧ 256 * (n % 65536 / 256) + n % 65536 % 256 < n := by
  have hdl : ∀ c d : Nat, dataLengthField (written s (generate_process rand s c d)) c
      = bigEndian16 d := by
    intro c d
    have h := dataLengthField_recordLayout (rand s.next % 256)
      (randomBytes rand (s.next + 1) c) (randomBytes rand (s.next + 1 + c) d)
    rw [randomBytes_length, randomBytes_length] at h
    rw [written_generate_process, h]
  have hcl : ∀ c d : Nat, codeLengthField (written s (generate_process rand s c d))
      = bigEndian16 c := by
    intro c d
    rw [written_generate_process, codeLengthField_recordLayout, randomBytes_length]
  have hb : bigEndian16 n = [n % 65536 / 256, n % 65536 % 256] := by
    unfold bigEndian16
    congr 1
    · omega
    · congr 1
      omega
  refine ⟨by rw [hcl]; rfl, by rw [hdl]; rfl, rfl, rfl, by rw [hcl, hb], by rw [hdl, hb],
    written_length rand s n other, written_length rand s other n, by omega⟩

/-- Instance of C8 amended: a code length of 65536 gives the length field
`00 00`. -/
theorem length_boundary_witness :
    (65536 : Nat) ≤ 65536 ∧
      codeLengthField (written (fresh 0) (generate_process sampleRand (fresh 0) (65536 : Nat) (0 : Nat)))
        = [0, 0] :=
  ⟨by decide,
    (length_boundary sampleRand (fresh 0) 0 65536 (by decide)).2.2.2.2.1.trans (by decide)⟩

/-- C9: when `generate_process` is called with `code_size = 2` and
`data_size = 0` on empty files and the `rand()` values give the id `0x07` and
the code bytes `0x01`, `0x02`, the binary output is the eight bytes
`07 00 02 01 02 00 00 FF` and the text output is `"07 00 02 01 02 00 00 FF\n"`. -/
theorem generate_process_scenario (rand : Nat → Nat) (k : Nat)
    (hid : rand k % 256 = 0x07) (h1 : rand (k + 1) % 256 = 0x01)
    (h2 : rand (k + 2) % 256 = 0x02) :
    (generate_process rand (fresh k) 2 0).binary = [0x07, 0x00, 0x02, 0x01, 0x02, 0x00, 0x00, 0xFF]
      ∧ String.mk (generate_process rand (fresh k) 2 0).text = "07 00 02 01 02 00 00 FF\n" := by
  have hbytes : randomBytes rand (k + 1) 2 = [1, 2] := by
    rw [randomBytes_succ, randomBytes_succ, randomBytes_zero, h1, h2]
  have hc : toUChar (sizeHigh 2) = 0 ∧ toUChar (sizeLow 2) = 2 := by decide
  have hd : toUChar (sizeHigh 0) = 0 ∧ toUChar (sizeLow 0) = 0 := by decide
  constructor
  · rw [generate_process_binary_eq]
    simp only [fresh, hid, hc.1, hc.2, hd.1, hd.2, show (2 : Int).toNat = 2 from rfl,
      show (0 : Int).toNat = 0 from rfl, hbytes, randomBytes_zero]
    rfl
  · rw [generate_process_text_eq]
    simp only [fresh, hid, hc.1, hc.2, hd.1, hd.2, show (2 : Int).toNat = 2 from rfl,
      show (0 : Int).toNat = 0 from rfl, hbytes, randomBytes_zero]
    decide

/-- Instance of C9: the `rand()` values 7, 1, 2 (then zeros). -/
theorem generate_process_scenario_witness :
    (scenarioRand 0 % 256 = 0x07 ∧ scenarioRand 1 % 256 = 0x01 ∧ scenarioRand 2 % 256 = 0x02) ∧
      ((generate_process scenarioRand (fresh 0) 2 0).binary =
          [0x07, 0x00, 0x02, 0x01, 0x02, 0x00, 0x00, 0xFF]
        ∧ String.mk (generate_process scenarioRand (fresh 0) 2 0).text
            = "07 00 02 01 02 00 00 FF\n") :=
  ⟨by decide, generate_process_scenario scenarioRand 0 (by decide) (by decide) (by decide)⟩

/-- C10: a record is self-contained. For sizes between 0 and 65535, whatever
was written to the stream before the call (the record starts at offset
`s.binary.length`) and whatever bytes `rest` follow it, the reference decoder
started at the record's first byte returns the id, code bytes and data bytes
that were written and leaves exactly `rest` unread. -/
theorem decode_record_self_contained (rand : Nat → Nat) (s : Sinks) (code_size data_size : Nat)
    (hc : code_size ≤ 65535) (hd : data_size ≤ 65535) (rest : List Nat) :
    decode_record
        (((generate_process rand s code_size data_size).binary ++ rest).drop s.binary.length) =
      some (⟨rand s.next % 256, randomBytes rand (s.next + 1) code_size,
        randomBytes rand (s.next + 1 + code_size) data_size⟩, rest) := by
  rw [binary_eq_recordLayout, List.append_assoc, List.drop_left]
  exact decode_record_layout_append _ _ _ rest (by rw [randomBytes_length]; exact hc)
    (by rw [randomBytes_length]; exact hd)

/-- Instance of C10: a record written after three earlier bytes and followed by
two more bytes. -/
theorem decode_record_self_contained_witness :
    ((1 : Nat) ≤ 65535 ∧ (2 : Nat) ≤ 65535) ∧
      decode_record
          (((generate_process sampleRand ⟨5, [], [9, 0xFF, 0]⟩ (1 : Nat) (2 : Nat)).binary
            ++ [0xFF, 7]).drop 3) =
        some (⟨79, [86], [93, 100]⟩, [0xFF, 7]) :=
  ⟨by decide,
    (decode_record_self_contained sampleRand ⟨5, [], [9, 0xFF, 0]⟩ 1 2 (by decide) (by decide)
      [0xFF, 7]).trans (by decide)⟩

/-! ## The loop of `main` -/

theorem fopen_calls (ok : Bool) (w : World) (name : String) (empty : FileData) :
    (fopen ok w name empty).calls = w.calls := by
  unfold fopen; split <;> rfl

theorem fopen_files_frame (ok : Bool) (w : World) (name : String) (empty : FileData) (n : String)
    (hn : n ≠ name) : (fopen ok w name empty).files n = w.files n := by
  unfold fopen
  split
  · simp [hn]
  · rfl

theorem fopen_files_self (ok : Bool) (w : World) (name : String) (empty : FileData) :
    (fopen ok w name empty).files name = if ok then some empty else w.files name := by
  unfold fopen
  split <;> simp

/-- The call `main` makes in the iteration `i` when both files open. -/
theorem main_iteration_of_open (rand : Nat → Nat) (opens : Nat → Bool × Bool) (i : Nat) (w : World)
    (h : bothOpen opens i = true) :
    main_iteration rand opens i w =
      { next := (ProcessCall.output rand
            ⟨i + 1, w.next + 2, main_code_size (rand w.next), main_data_size (rand (w.next + 1))⟩).next
        files := fun n =>
          if n = binary_filename i then
            some (FileData.binary (ProcessCall.output rand
              ⟨i + 1, w.next + 2, main_code_size (rand w.next),
                main_data_size (rand (w.next + 1))⟩).binary)
          else if n = text_filename i then
            some (FileData.text (ProcessCall.output rand
              ⟨i + 1, w.next + 2, main_code_size (rand w.next),
                main_data_size (rand (w.next + 1))⟩).text)
          else w.files n
        opened := w.opened ++ [text_filename i, binary_filename i]
        calls := w.calls ++
          [⟨i + 1, w.next + 2, main_code_size (rand w.next), main_data_size (rand (w.next + 1))⟩] } := by
  simp only [bothOpen, Bool.and_eq_true] at h
  obtain ⟨h1, h2⟩ := h
  simp only [main_iteration, h1, h2, fopen, ProcessCall.output]
  simp only [Bool.true_eq_false, or_self, if_false, if_true, List.append_assoc,
    List.singleton_append, World.mk.injEq, true_and, and_true]
  funext n
  by_cases hb : n = binary_filename i
  · simp [hb]
  · by_cases ht : n = text_filename i
    · simp [hb, ht]
    · simp [hb, ht]

/-- The iteration `i` when one of the two files does not open: only the two
`fopen` calls take effect. -/
theorem main_iteration_of_fail (rand : Nat → Nat) (opens : Nat → Bool × Bool) (i : Nat) (w : World)
    (h : bothOpen opens i = false) :
    main_iteration rand opens i w =
      fopen (opens i).2 (fopen (opens i).1 w (text_filename i) (FileData.text []))
        (binary_filename i) (FileData.binary []) := by
  have h' : (opens i).1 = false ∨ (opens i).2 = false := by
    simp only [bothOpen, Bool.and_eq_false_iff] at h
    exact h
  simp only [main_iteration, h', if_true]

theorem main_iteration_process (rand : Nat → Nat) (opens : Nat → Bool × Bool) (i : Nat) (w : World) :
    (main_iteration rand opens i w).calls.map ProcessCall.process =
      w.calls.map ProcessCall.process ++ (if bothOpen opens i = true then [i + 1] else []) := by
  by_cases h : bothOpen opens i = true
  · rw [main_iteration_of_open rand opens i w h]
    simp [h]
  · have hf : bothOpen opens i = false := by simpa using h
    rw [main_iteration_of_fail rand opens i w hf, fopen_calls, fopen_calls]
    simp [hf]

theorem main_iteration_calls_prefix (rand : Nat → Nat) (opens : Nat → Bool × Bool) (i : Nat)
    (w : World) : ∃ extra, (main_iteration rand opens i w).calls = w.calls ++ extra := by
  by_cases h : bothOpen opens i = true
  · rw [main_iteration_of_open rand opens i w h]
    exact ⟨_, rfl⟩
  · have hf : bothOpen opens i = false := by simpa using h
    rw [main_iteration_of_fail rand opens i w hf, fopen_calls, fopen_calls]
    exact ⟨[], by simp⟩

theorem main_iteration_files_frame (rand : Nat → Nat) (opens : Nat → Bool × Bool) (i : Nat)
    (w : World) (n : String) (ht : n ≠ text_filename i) (hb : n ≠ binary_filename i) :
    (main_iteration rand opens i w).files n = w.files n := by
  by_cases h : bothOpen opens i = true
  · rw [main_iteration_of_open rand opens i w h]
    simp [ht, hb]
  · have hf : bothOpen opens i = false := by simpa using h
    rw [main_iteration_of_fail rand opens i w hf, fopen_files_frame _ _ _ _ _ hb,
      fopen_files_frame _ _ _ _ _ ht]

theorem main_loop_zero (rand : Nat → Nat) (opens : Nat → Bool × Bool) (i : Nat) (w : World) :
    main_loop rand opens 0 i w = w := rfl

theorem main_loop_succ (rand : Nat → Nat) (opens : Nat → Bool × Bool) (n i : Nat) (w : World) :
    main_loop rand opens (n + 1) i w =
      main_loop rand opens n (i + 1) (main_iteration rand opens i w) := rfl

theorem main_loop_add (rand : Nat → Nat) (opens : Nat → Bool × Bool) (a b i : Nat) (w : World) :
    main_loop rand opens (a + b) i w =
      main_loop rand opens b (i + a) (main_loop rand opens a i w) := by
  induction a generalizing i w with
  | zero => simp [main_loop_zero]
  | succ a ih =>
    rw [show a + 1 + b = (a + b) + 1 by omega, main_loop_succ, ih, main_loop_succ]
    congr 1
    omega

theorem main_loop_process (rand : Nat → Nat) (opens : Nat → Bool × Bool) (n i : Nat) (w : World) :
    (main_loop rand opens n i w).calls.map ProcessCall.process =
      w.calls.map ProcessCall.process ++
        ((List.range' i n).filter (fun j => bothOpen opens j)).map (fun j => j + 1) := by
  induction n generalizing i w with
  | zero => simp [main_loop_zero]
  | succ n ih =>
    rw [main_loop_succ, ih, main_iteration_process, List.range'_succ, List.filter_cons]
    by_cases h : bothOpen opens i = true
    · simp [h]
    · simp [h]

theorem main_loop_calls_prefix (rand : Nat → Nat) (opens : Nat → Bool × Bool) (n i : Nat)
    (w : World) : ∃ extra, (main_loop rand opens n i w).calls = w.calls ++ extra := by
  induction n generalizing i w with
  | zero => exact ⟨[], by simp [main_loop_zero]⟩
  | succ n ih =>
    obtain ⟨e1, h1⟩ := main_iteration_calls_prefix rand opens i w
    obtain ⟨e2, h2⟩ := ih (i + 1) (main_iteration rand opens i w)
    exact ⟨e1 ++ e2, by rw [main_loop_succ, h2, h1, List.append_assoc]⟩

theorem main_loop_files_frame (rand : Nat → Nat) (opens : Nat → Bool × Bool) (n i : Nat)
    (w : World) (name : String)
    (hname : ∀ j, i ≤ j → j < i + n → name ≠ text_filename j ∧ name ≠ binary_filename j) :
    (main_loop rand opens n i w).files name = w.files name := by
  induction n generalizing i w with
  | zero => rfl
  | succ n ih =>
    rw [main_loop_succ, ih (i + 1) _ (fun j h1 h2 => hname j (by omega) (by omega)),
      main_iteration_files_frame rand opens i w name (hname i (le_refl _) (by omega)).1
        (hname i (le_refl _) (by omega)).2]

/-- The names of the files of the five processes are pairwise different. -/
theorem filenames_distinct (i j : Nat) (hi : i < 5) (hj : j < 5) :
    text_filename i ≠ binary_filename j
      ∧ (i ≠ j → text_filename i ≠ text_filename j ∧ binary_filename i ≠ binary_filename j) := by
  interval_cases i <;> interval_cases j <;> decide

theorem main_code_size_range (r : Nat) : 16 ≤ main_code_size r ∧ main_code_size r ≤ 79 := by
  unfold main_code_size; omega

theorem main_data_size_range (r : Nat) : 64 ≤ main_data_size r ∧ main_data_size r ≤ 191 := by
  unfold main_data_size; omega

theorem main_iteration_sizes (rand : Nat → Nat) (opens : Nat → Bool × Bool) (i : Nat) (w : World)
    (c : ProcessCall) (hc : c ∈ (main_iteration rand opens i w).calls) :
    c ∈ w.calls ∨ ∃ r r', c.code_size = main_code_size r ∧ c.data_size = main_data_size r' := by
  by_cases h : bothOpen opens i = true
  · rw [main_iteration_of_open rand opens i w h] at hc
    simp only [List.mem_append, List.mem_singleton] at hc
    rcases hc with hc | rfl
    · exact Or.inl hc
    · exact Or.inr ⟨_, _, rfl, rfl⟩
  · have hf : bothOpen opens i = false := by simpa using h
    rw [main_iteration_of_fail rand opens i w hf, fopen_calls, fopen_calls] at hc
    exact Or.inl hc

theorem main_loop_sizes (rand : Nat → Nat) (opens : Nat → Bool × Bool) (n i : Nat) (w : World)
    (c : ProcessCall) (hc : c ∈ (main_loop rand opens n i w).calls) :
    c ∈ w.calls ∨ ∃ r r', c.code_size = main_code_size r ∧ c.data_size = main_data_size r' := by
  induction n generalizing i w with
  | zero => exact Or.inl hc
  | succ n ih =>
    rw [main_loop_succ] at hc
    rcases ih (i + 1) _ hc with h | h
    · exact main_iteration_sizes rand opens i w c h
    · exact Or.inr h

/-- A run of `main` seen from its iteration `t`: the iterations before it, the
iteration itself, the iterations after it. -/
theorem main_split (rand : Nat → Nat) (opens : Nat → Bool × Bool) (w : World) (t : Nat)
    (ht : t < 5) :
    (main rand opens w).1 =
      main_loop rand opens (4 - t) (t + 1)
        (main_iteration rand opens t (main_loop rand opens t 0 w)) := by
  show main_loop rand opens 5 0 w = _
  rw [show (5 : Nat) = t + ((4 - t) + 1) by omega, main_loop_add,
    show (4 - t) + 1 = 1 + (4 - t) by omega, main_loop_add, main_loop_succ, main_loop_zero]
  simp only [Nat.zero_add]

theorem main_files_of_iteration (rand : Nat → Nat) (opens : Nat → Bool × Bool) (w : World)
    (t : Nat) (ht : t < 5) (name : String)
    (hname : name = text_filename t ∨ name = binary_filename t) :
    (main rand opens w).1.files name =
      (main_iteration rand opens t (main_loop rand opens t 0 w)).files name := by
  rw [main_split rand opens w t ht]
  apply main_loop_files_frame
  intro j h1 h2
  have hj : j < 5 := by omega
  have hne : t ≠ j := by omega
  have hd := filenames_distinct t j ht hj
  have hd' := filenames_distinct j t hj ht
  rcases hname with rfl | rfl
  · exact ⟨(hd.2 hne).1, hd.1⟩
  · exact ⟨fun h => hd'.1 h.symm, (hd.2 hne).2⟩

theorem main_loop_before_files (rand : Nat → Nat) (opens : Nat → Bool × Bool) (w : World)
    (t : Nat) (ht : t < 5) (name : String)
    (hname : name = text_filename t ∨ name = binary_filename t) :
    (main_loop rand opens t 0 w).files name = w.files name := by
  apply main_loop_files_frame
  intro j _ h2
  have hj : j < 5 := by omega
  have hne : t ≠ j := by omega
  have hd := filenames_distinct t j ht hj
  have hd' := filenames_distinct j t hj ht
  rcases hname with rfl | rfl
  · exact ⟨(hd.2 hne).1, hd.1⟩
  · exact ⟨fun h => hd'.1 h.symm, (hd.2 hne).2⟩

theorem generate_process_head (rand : Nat → Nat) (k : Nat) (code_size data_size : Int) :
    (generate_process rand (fresh k) code_size data_size).binary.head? = some (rand k % 256) := by
  rw [generate_process_binary_eq]
  rfl

/-! ## Properties of `main` -/

/-- C11: for every `rand()` value the code size `main` computes lies in 16..80
and the data size in 64..192, so do the sizes of every call of
`generate_process` that a run of `main` makes, and the process id byte that
call writes lies in 0..255. -/
theorem main_sizes_in_range (rand : Nat → Nat) (opens : Nat → Bool × Bool)
    (disk : String → Option FileData) (r : Nat) (call : ProcessCall)
    (hcall : call ∈ (main rand opens (World.start disk)).1.calls) :
    (16 ≤ main_code_size r ∧ main_code_size r ≤ 80)
      ∧ (64 ≤ main_data_size r ∧ main_data_size r ≤ 192)
      ∧ (16 ≤ call.code_size ∧ call.code_size ≤ 80)
      ∧ (64 ≤ call.data_size ∧ call.data_size ≤ 192)
      ∧ ∃ id : Nat, (ProcessCall.output rand call).binary.head? = some id ∧ 0 ≤ id ∧ id ≤ 255 := by
  have hr := main_code_size_range r
  have hr' := main_data_size_range r
  have hsizes := main_loop_sizes rand opens 5 0 (World.start disk) call hcall
  rcases hsizes with h | ⟨a, b, ha, hb⟩
  · exact absurd h (by simp [World.start])
  · have h1 := main_code_size_range a
    have h2 := main_data_size_range b
    refine ⟨⟨hr.1, by omega⟩, ⟨hr'.1, by omega⟩, ⟨by omega, by omega⟩, ⟨by omega, by omega⟩,
      rand call.rand_before % 256, generate_process_head rand _ _ _, Nat.zero_le _, ?_⟩
    have := Nat.mod_lt (rand call.rand_before) (show 0 < 256 by norm_num)
    omega

/-- Instance of C11: the first call of a run in which every file opens. -/
theorem main_sizes_in_range_witness :
    (⟨1, 2, 60, 115⟩ : ProcessCall) ∈ (main sampleRand allOpen (World.start emptyDisk)).1.calls
      ∧ (16 ≤ (60 : Int) ∧ (60 : Int) ≤ 80) ∧ (64 ≤ (115 : Int) ∧ (115 : Int) ≤ 192) :=
  ⟨by decide,
    (main_sizes_in_range sampleRand allOpen emptyDisk 0 ⟨1, 2, 60, 115⟩ (by decide)).2.2.1,
    (main_sizes_in_range sampleRand allOpen emptyDisk 0 ⟨1, 2, 60, 115⟩ (by decide)).2.2.2.1⟩

theorem main_process_list (rand : Nat → Nat) (opens : Nat → Bool × Bool)
    (disk : String → Option FileData) :
    (main rand opens (World.start disk)).1.calls.map ProcessCall.process =
      ((List.range 5).filter (fun j => bothOpen opens j)).map (fun j => j + 1) := by
  show (main_loop rand opens 5 0 (World.start disk)).calls.map ProcessCall.process = _
  rw [main_loop_process, List.range_eq_range']
  simp [World.start]

/-- C13: for every pattern of open outcomes, `main` calls `generate_process`
for exactly the processes whose text file and binary file both open, in order
and whatever happened to earlier processes; for a process with a failed open
no record is written (each of its two files is empty if it did open and is
left as it was on disk if it did not); and the exit status is 0. -/
theorem main_open_failures (rand : Nat → Nat) (opens : Nat → Bool × Bool)
    (disk : String → Option FileData) (i : Nat) (hi : i < 5) :
    (main rand opens (World.start disk)).1.calls.map ProcessCall.process =
        ((List.range 5).filter (fun j => bothOpen opens j)).map (fun j => j + 1)
      ∧ (i + 1 ∈ (main rand opens (World.start disk)).1.calls.map ProcessCall.process
          ↔ bothOpen opens i = true)
      ∧ (bothOpen opens i = false →
          (main rand opens (World.start disk)).1.files (text_filename i) =
              (if (opens i).1 = true then some (FileData.text []) else disk (text_filename i))
          ∧ (main rand opens (World.start disk)).1.files (binary_filename i) =
              (if (opens i).2 = true then some (FileData.binary []) else disk (binary_filename i)))
      ∧ (main rand opens (World.start disk)).2 = 0 := by
  refine ⟨main_process_list rand opens disk, ?_, ?_, rfl⟩
  · rw [main_process_list]
    simp only [List.mem_map, List.mem_filter, List.mem_range]
    constructor
    · rintro ⟨j, ⟨_, hj⟩, hji⟩
      have : j = i := by omega
      subst this
      exact hj
    · intro h
      exact ⟨i, ⟨hi, h⟩, rfl⟩
  · intro hfail
    have hne := (filenames_distinct i i hi hi).1
    constructor
    · rw [main_files_of_iteration rand opens _ i hi _ (Or.inl rfl),
        main_iteration_of_fail rand opens i _ hfail, fopen_files_frame _ _ _ _ _ hne,
        fopen_files_self, main_loop_before_files rand opens _ i hi _ (Or.inl rfl)]
      rfl
    · rw [main_files_of_iteration rand opens _ i hi _ (Or.inr rfl),
        main_iteration_of_fail rand opens i _ hfail, fopen_files_self,
        fopen_files_frame _ _ _ _ _ (fun h => hne h.symm),
        main_loop_before_files rand opens _ i hi _ (Or.inr rfl)]
      rfl

/-- Instance of C13: the binary file of the second process and the text file
of the fifth do not open; the processes 1, 3 and 4 are generated. -/
theorem main_open_failures_witness :
    (1 < 5) ∧
      (main sampleRand sampleOpens (World.start emptyDisk)).1.calls.map ProcessCall.process
        = [1, 3, 4] :=
  ⟨by decide, (main_open_failures sampleRand sampleOpens emptyDisk 1 (by decide)).1.trans
    (by decide)⟩

/-- C17: for every `rand()` value the code size `16 + rand() % 64` is at most 79
and the data size `64 + rand() % 128` is at most 191, so 80 and 192 are never
generated; and every size `c` in 16..79 and every size `d` in 64..191 is
generated for some `rand()` values, which a run of `main` then passes to
`generate_process`. -/
theorem main_sizes_exact (r : Nat) (c d : Int) (hc : 16 ≤ c ∧ c ≤ 79) (hd : 64 ≤ d ∧ d ≤ 191) :
    main_code_size r ≤ 79 ∧ main_data_size r ≤ 191
      ∧ main_code_size r ≠ 80 ∧ main_data_size r ≠ 192
      ∧ (∃ r₁ : Nat, main_code_size r₁ = c)
      ∧ (∃ r₂ : Nat, main_data_size r₂ = d)
      ∧ ∃ (rand : Nat → Nat) (call : ProcessCall),
          call ∈ (main rand allOpen (World.start emptyDisk)).1.calls
          ∧ call.code_size = c ∧ call.data_size = d := by
  have h1 := main_code_size_range r
  have h2 := main_data_size_range r
  have hc' : main_code_size (c - 16).toNat = c := by unfold main_code_size; omega
  have hd' : main_data_size (d - 64).toNat = d := by unfold main_data_size; omega
  refine ⟨h1.2, h2.2, by omega, by omega, ⟨_, hc'⟩, ⟨_, hd'⟩,
    fun k => if k = 0 then (c - 16).toNat else (d - 64).toNat, ⟨1, 2, c, d⟩, ?_, rfl, rfl⟩
  rw [main_split _ allOpen _ 0 (by norm_num)]
  obtain ⟨extra, hextra⟩ := main_loop_calls_prefix
    (fun k => if k = 0 then (c - 16).toNat else (d - 64).toNat) allOpen (4 - 0) (0 + 1)
    (main_iteration (fun k => if k = 0 then (c - 16).toNat else (d - 64).toNat) allOpen 0
      (main_loop (fun k => if k = 0 then (c - 16).toNat else (d - 64).toNat) allOpen 0 0
        (World.start emptyDisk)))
  rw [hextra, main_loop_zero, main_iteration_of_open _ allOpen 0 _ rfl]
  simp only [World.start, List.nil_append, List.mem_append, List.mem_singleton]
  left
  simp [hc', hd']

/-- Instance of C17: the sizes 79 and 191 are generated, by the `rand()` values
63 and 127. -/
theorem main_sizes_exact_witness :
    ((16 ≤ (79 : Int) ∧ (79 : Int) ≤ 79) ∧ (64 ≤ (191 : Int) ∧ (191 : Int) ≤ 191))
      ∧ main_code_size 63 ≤ 79 ∧ main_data_size 63 ≤ 191 :=
  ⟨by decide, (main_sizes_exact 63 79 191 (by decide) (by decide)).1,
    (main_sizes_exact 63 79 191 (by decide) (by decide)).2.1⟩

/-! ## The write calls of `generate_process` -/

theorem performAll_nil (s : Sinks) : performAll s [] = s := rfl

theorem performAll_cons (s : Sinks) (c : WriteCall) (cs : List WriteCall) :
    performAll s (c :: cs) = performAll (c.perform s) cs := rfl

theorem performAll_append (s : Sinks) (as bs : List WriteCall) :
    performAll s (as ++ bs) = performAll (performAll s as) bs := by
  simp [performAll, List.foldl_append]

theorem chunkCalls_nil : chunkCalls [] = [] := rfl

theorem chunkCalls_cons (ch : List Nat) (chunks : List (List Nat)) :
    chunkCalls (ch :: chunks) =
      WriteCall.toText (hexText ch) :: WriteCall.toBinary ch :: chunkCalls chunks := by
  simp [chunkCalls]

theorem chunkCalls_append (as bs : List (List Nat)) :
    chunkCalls (as ++ bs) = chunkCalls as ++ chunkCalls bs := by
  simp [chunkCalls]

theorem generate_random_byte_calls_eq (rand : Nat → Nat) (k : Nat) :
    generate_random_byte_calls rand k = chunkCalls [[rand k % 256]] := by
  unfold generate_random_byte_calls
  simp only [toUChar_rand]
  rw [fmt02X_byte _ (Nat.mod_lt _ (by norm_num))]
  simp [chunkCalls, hexText]

theorem generate_bytes_calls_eq (rand : Nat → Nat) (n k : Nat) :
    generate_bytes_calls rand n k = chunkCalls ((randomBytes rand k n).map (fun b => [b])) := by
  induction n generalizing k with
  | zero => rfl
  | succ n ih =>
    rw [generate_bytes_calls, ih, generate_random_byte_calls_eq, randomBytes_succ, List.map_cons,
      ← chunkCalls_append]
    rfl

/-- The chunks in which `generate_process` writes the bytes before the end
marker: the id, the two bytes of the code size, the code bytes one by one, the
two bytes of the data size, the data bytes one by one. -/
theorem generate_process_calls_eq (rand : Nat → Nat) (k : Nat) (code_size data_size : Int) :
    generate_process_calls rand k code_size data_size =
      chunkCalls ([[rand k % 256], [toUChar (sizeHigh code_size), toUChar (sizeLow code_size)]]
          ++ (randomBytes rand (k + 1) code_size.toNat).map (fun b => [b])
          ++ [[toUChar (sizeHigh data_size), toUChar (sizeLow data_size)]]
          ++ (randomBytes rand (k + 1 + code_size.toNat) data_size.toNat).map (fun b => [b]))
        ++ [WriteCall.toText ['F', 'F', '\n'], WriteCall.toBinary [0xFF]] := by
  unfold generate_process_calls
  simp only [toUChar_rand, generate_bytes_calls_eq]
  rw [fmt02X_byte _ (Nat.mod_lt _ (by norm_num)),
    fmt02X_int_byte _ (sizeHigh_range code_size), fmt02X_int_byte _ (sizeLow_range code_size),
    fmt02X_int_byte _ (sizeHigh_range data_size), fmt02X_int_byte _ (sizeLow_range data_size)]
  simp only [chunkCalls_append, chunkCalls_cons, chunkCalls_nil, hexText_cons, hexText_nil,
    List.append_assoc, List.append_nil, List.singleton_append, List.cons_append, List.nil_append]

theorem flatten_map_singleton (bs : List Nat) : (bs.map (fun b => [b])).flatten = bs := by
  induction bs with
  | nil => rfl
  | cons b bs ih => simp [ih]

theorem performAll_chunkCalls (s : Sinks) (chunks : List (List Nat)) :
    performAll s (chunkCalls chunks) =
      { s with text := s.text ++ hexText chunks.flatten, binary := s.binary ++ chunks.flatten } := by
  induction chunks generalizing s with
  | nil => simp [chunkCalls_nil, performAll_nil, hexText_nil]
  | cons ch chunks ih =>
    rw [chunkCalls_cons, performAll_cons, performAll_cons, ih]
    simp [WriteCall.perform, fprintf, fwrite, hexText_append]

/-- Running all the write calls of `generate_process` gives the files that
`generate_process` gives. -/
theorem performAll_generate_process_calls (rand : Nat → Nat) (s : Sinks)
    (code_size data_size : Int) :
    (performAll s (generate_process_calls rand s.next code_size data_size)).text =
        (generate_process rand s code_size data_size).text
      ∧ (performAll s (generate_process_calls rand s.next code_size data_size)).binary =
        (generate_process rand s code_size data_size).binary := by
  rw [generate_process_calls_eq, performAll_append, performAll_chunkCalls,
    generate_process_text_eq, generate_process_binary_eq]
  simp [performAll, WriteCall.perform, fprintf, fwrite, flatten_map_singleton]

/-- After any number of the write calls of a list of chunks, started on files
where the text holds the tokens of the binary bytes, the text holds the tokens
of the binary bytes and of the bytes of at most one more chunk. -/
theorem chunkCalls_prefix (chunks : List (List Nat)) (s : Sinks) (n : Nat)
    (hs : s.text = hexText s.binary) (hb : ∀ b ∈ s.binary, b < 256)
    (hlen : ∀ ch ∈ chunks, ch.length ≤ 2) (hlt : ∀ ch ∈ chunks, ∀ b ∈ ch, b < 256) :
    ∃ extra : List Nat, extra.length ≤ 2
      ∧ (∀ b ∈ (performAll s ((chunkCalls chunks).take n)).binary ++ extra, b < 256)
      ∧ (performAll s ((chunkCalls chunks).take n)).text =
          hexText ((performAll s ((chunkCalls chunks).take n)).binary ++ extra) := by
  induction chunks generalizing s n with
  | nil =>
    refine ⟨[], by simp, ?_, ?_⟩
    · simpa [chunkCalls_nil, performAll_nil] using hb
    · simpa [chunkCalls_nil, performAll_nil] using hs
  | cons ch chunks ih =>
    have hch_len : ch.length ≤ 2 := hlen ch (List.mem_cons_self _ _)
    have hch_lt : ∀ b ∈ ch, b < 256 := hlt ch (List.mem_cons_self _ _)
    rw [chunkCalls_cons]
    match n with
    | 0 =>
      refine ⟨[], by simp, ?_, ?_⟩
      · simpa [performAll_nil] using hb
      · simpa [performAll_nil] using hs
    | 1 =>
      refine ⟨ch, hch_len, ?_, ?_⟩
      · intro b hmem
        simp only [List.take_succ_cons, List.take_zero, performAll_cons, performAll_nil,
          WriteCall.perform, fprintf, List.mem_append] at hmem
        rcases hmem with h | h
        · exact hb b h
        · exact hch_lt b h
      · simp only [List.take_succ_cons, List.take_zero, performAll_cons, performAll_nil,
          WriteCall.perform, fprintf, hs, hexText_append]
    | m + 2 =>
      simp only [List.take_succ_cons, performAll_cons]
      apply ih
      · simp only [WriteCall.perform, fprintf, fwrite, hs, hexText_append]
      · intro b hmem
        simp only [WriteCall.perform, fprintf, fwrite, List.mem_append] at hmem
        rcases hmem with h | h
        · exact hb b h
        · exact hch_lt b h
      · exact fun c hc => hlen c (List.mem_cons_of_mem _ hc)
      · exact fun c hc => hlt c (List.mem_cons_of_mem _ hc)

theorem tokens_hexText (bs : List Nat) (hbs : ∀ b ∈ bs, b < 256) :
    tokens (hexText bs) = bs.map hexToken := by
  unfold tokens
  have h := splitOnP_hexText bs hbs []
  rw [List.append_nil] at h
  rw [h, List.filter_append, filter_nonempty_map_hexToken]
  have hnil : ([] : List Char).splitOnP isSeparator = [[]] := by decide
  rw [hnil]
  simp

theorem tokens_record (bs : List Nat) (hbs : ∀ b ∈ bs, b < 256) :
    tokens (hexText bs ++ ['F', 'F', '\n']) = (bs ++ [255]).map hexToken := by
  unfold tokens
  rw [splitOnP_hexText bs hbs]
  have hend : (['F', 'F', '\n'] : List Char).splitOnP isSeparator = [hexToken 255, []] := by
    decide
  rw [hend, List.filter_append, filter_nonempty_map_hexToken, List.map_append]
  congr 1

theorem textToBytes_eq_readTokens (t : List Char) : textToBytes t = readTokens (tokens t) := rfl

theorem textToBytes_hexText (bs : List Nat) (hbs : ∀ b ∈ bs, b < 256) :
    textToBytes (hexText bs) = some bs := by
  rw [textToBytes_eq_readTokens, tokens_hexText bs hbs]
  exact readTokens_map_hexToken bs hbs

/-- The chunks of `generate_process` have at most two bytes, all below 256. -/
theorem generate_process_chunks (rand : Nat → Nat) (k : Nat) (code_size data_size : Int) :
    (∀ ch ∈ [[rand k % 256], [toUChar (sizeHigh code_size), toUChar (sizeLow code_size)]]
          ++ (randomBytes rand (k + 1) code_size.toNat).map (fun b => [b])
          ++ [[toUChar (sizeHigh data_size), toUChar (sizeLow data_size)]]
          ++ (randomBytes rand (k + 1 + code_size.toNat) data_size.toNat).map (fun b => [b]),
        ch.length ≤ 2)
      ∧ (∀ ch ∈ [[rand k % 256], [toUChar (sizeHigh code_size), toUChar (sizeLow code_size)]]
          ++ (randomBytes rand (k + 1) code_size.toNat).map (fun b => [b])
          ++ [[toUChar (sizeHigh data_size), toUChar (sizeLow data_size)]]
          ++ (randomBytes rand (k + 1 + code_size.toNat) data_size.toNat).map (fun b => [b]),
        ∀ b ∈ ch, b < 256) := by
  have hbody := generate_process_body_lt rand k code_size data_size
  constructor
  · intro ch hch
    simp only [List.mem_append, List.mem_cons, List.mem_singleton, List.not_mem_nil, or_false,
      List.mem_map] at hch
    rcases hch with (((rfl | rfl) | ⟨_, _, rfl⟩) | rfl) | ⟨_, _, rfl⟩ <;> simp
  · intro ch hch b hb
    apply hbody b
    simp only [List.mem_append, List.mem_cons, List.mem_singleton, List.not_mem_nil, or_false,
      List.mem_map] at hch ⊢
    rcases hch with (((rfl | rfl) | ⟨x, hx, rfl⟩) | rfl) | ⟨x, hx, rfl⟩
    · simp only [List.mem_singleton] at hb
      exact Or.inl (Or.inl (Or.inl (Or.inl hb)))
    · simp only [List.mem_cons, List.mem_singleton, List.not_mem_nil, or_false] at hb
      rcases hb with hb | hb
      · exact Or.inl (Or.inl (Or.inl (Or.inr (Or.inl hb))))
      · exact Or.inl (Or.inl (Or.inl (Or.inr (Or.inr hb))))
    · simp only [List.mem_singleton] at hb
      subst hb
      exact Or.inl (Or.inl (Or.inr hx))
    · simp only [List.mem_cons, List.mem_singleton, List.not_mem_nil, or_false] at hb
      rcases hb with hb | hb
      · exact Or.inl (Or.inr (Or.inl hb))
      · exact Or.inl (Or.inr (Or.inr hb))
    · simp only [List.mem_singleton] at hb
      subst hb
      exact Or.inr hx

/-- The end marker after the chunks: the streams after the `fprintf` of the
marker, and after its `fwrite` as well. -/
theorem end_marker_calls (body : List Nat) (k m : Nat) :
    performAll { next := k, text := hexText body, binary := body }
        ([WriteCall.toText ['F', 'F', '\n'], WriteCall.toBinary [0xFF]].take (m + 1)) =
      { next := k, text := hexText body ++ ['F', 'F', '\n'],
        binary := if m = 0 then body else body ++ [0xFF] } := by
  match m with
  | 0 => rfl
  | m + 1 => simp [performAll, WriteCall.perform, fprintf, fwrite]

theorem performAll_fresh_chunkCalls (k : Nat) (chunks : List (List Nat)) :
    performAll (fresh k) (chunkCalls chunks) =
      { next := k, text := hexText chunks.flatten, binary := chunks.flatten } := by
  rw [performAll_chunkCalls]
  simp [fresh]

/-- The lockstep property for a record written chunk by chunk and closed by the
end marker. -/
theorem record_calls_prefix (chunks : List (List Nat)) (k n : Nat)
    (hlen : ∀ ch ∈ chunks, ch.length ≤ 2) (hlt : ∀ ch ∈ chunks, ∀ b ∈ ch, b < 256) :
    ∃ denoted : List Nat,
      textToBytes (performAll (fresh k) ((chunkCalls chunks
          ++ [WriteCall.toText ['F', 'F', '\n'], WriteCall.toBinary [0xFF]]).take n)).text
        = some denoted
      ∧ (tokens (performAll (fresh k) ((chunkCalls chunks
          ++ [WriteCall.toText ['F', 'F', '\n'], WriteCall.toBinary [0xFF]]).take n)).text).length
        = denoted.length
      ∧ (performAll (fresh k) ((chunkCalls chunks
          ++ [WriteCall.toText ['F', 'F', '\n'], WriteCall.toBinary [0xFF]]).take n)).binary
        <+: denoted
      ∧ denoted.length ≤ (performAll (fresh k) ((chunkCalls chunks
          ++ [WriteCall.toText ['F', 'F', '\n'], WriteCall.toBinary [0xFF]]).take n)).binary.length
          + 2 := by
  rw [List.take_append_eq_append_take, performAll_append]
  by_cases hn : n ≤ (chunkCalls chunks).length
  · -- the calls made so far come before the end marker
    rw [Nat.sub_eq_zero_of_le hn, List.take_zero, performAll_nil]
    obtain ⟨extra, hextra, hlt', htext⟩ := chunkCalls_prefix chunks (fresh k) n rfl
      (by simp [fresh]) hlen hlt
    refine ⟨_, ?_, ?_, List.prefix_append _ extra, ?_⟩
    · rw [htext]
      exact textToBytes_hexText _ hlt'
    · rw [htext, tokens_hexText _ hlt', List.length_map]
    · rw [List.length_append]
      omega
  · -- the `fprintf` of the end marker is made, and maybe its `fwrite`
    have hbody : ∀ b ∈ chunks.flatten, b < 256 := by
      intro b hb
      obtain ⟨ch, hch, hbch⟩ := List.mem_flatten.mp hb
      exact hlt ch hch b hbch
    obtain ⟨m, hm⟩ : ∃ m, n - (chunkCalls chunks).length = m + 1 :=
      ⟨n - (chunkCalls chunks).length - 1, by omega⟩
    rw [List.take_of_length_le (Nat.le_of_lt (Nat.lt_of_not_le hn)),
      performAll_fresh_chunkCalls, hm, end_marker_calls]
    refine ⟨chunks.flatten ++ [255], textToBytes_record _ hbody, ?_, ?_, ?_⟩
    · rw [tokens_record _ hbody, List.length_map]
    · by_cases h0 : m = 0
      · simp only [h0, if_true]
        exact List.prefix_append _ _
      · simp only [h0, if_false]
        exact List.prefix_refl _
    · by_cases h0 : m = 0
      · simp only [h0, if_true, List.length_append, List.length_singleton]
        omega
      · simp only [h0, if_false]
        omega

/-! ## Lockstep of the two sinks, unchecked writes, oversized lengths, end marker -/

/-- C14, as the claim states it, fails: after the third write call of a run
(the `fprintf` of the two bytes of the code size) three tokens have been passed
to the text stream and one byte to the binary stream, so the two counts differ
by two and the two sinks are not at the same byte offset. -/
theorem lockstep_gap_of_two :
    (tokens (generate_process_passed sampleRand 3 0 2 1).text).length = 3
      ∧ (generate_process_passed sampleRand 3 0 2 1).binary.length = 1
      ∧ ¬ ((tokens (generate_process_passed sampleRand 3 0 2 1).text).length
            ≤ (generate_process_passed sampleRand 3 0 2 1).binary.length + 1) := by
  decide

/-- C14 amended: taking each `fprintf` and `fwrite` call as one step, after
every step of every call of `generate_process` on empty streams the text passed
to the text stream consists of whole tokens, the bytes they denote start with
the bytes passed to the binary stream (the bytes common to both sinks agree and
the text is never behind), and the text is ahead by at most two bytes; once all
the write calls are made the two streams hold the output of `generate_process`.
This is a property of the order of the write calls, not of the files on disk
when a run is cut off. -/
theorem writes_in_lockstep (rand : Nat → Nat) (k : Nat) (code_size data_size : Int) (n : Nat) :
    (∃ denoted : List Nat,
        textToBytes (generate_process_passed rand n k code_size data_size).text = some denoted
        ∧ (tokens (generate_process_passed rand n k code_size data_size).text).length
            = denoted.length
        ∧ (generate_process_passed rand n k code_size data_size).binary <+: denoted
        ∧ denoted.length ≤ (generate_process_passed rand n k code_size data_size).binary.length + 2)
      ∧ (generate_process_passed rand (generate_process_calls rand k code_size data_size).length k
            code_size data_size).text = (generate_process rand (fresh k) code_size data_size).text
      ∧ (generate_process_passed rand (generate_process_calls rand k code_size data_size).length k
            code_size data_size).binary
          = (generate_process rand (fresh k) code_size data_size).binary := by
  refine ⟨?_, ?_, ?_⟩
  · obtain ⟨hlen, hlt⟩ := generate_process_chunks rand k code_size data_size
    unfold generate_process_passed
    rw [generate_process_calls_eq]
    exact record_calls_prefix _ k n hlen hlt
  · unfold generate_process_passed
    rw [List.take_length]
    exact (performAll_generate_process_calls rand (fresh k) code_size data_size).1
  · unfold generate_process_passed
    rw [List.take_length]
    exact (performAll_generate_process_calls rand (fresh k) code_size data_size).2

/-- C16: for every segment length `n` of 65536 or more `generate_process` does
not fail: it writes the length field as the two bytes, high byte first, of
`n % 65536` and still writes all `n` bytes of the segment, so that the value of
the length field differs from the number of bytes that follow. -/
theorem oversized_length_truncated (rand : Nat → Nat) (s : Sinks) (other n : Nat)
    (hn : 65536 ≤ n) :
    generate_process_outcome rand s n other = Except.ok (generate_process rand s n other)
      ∧ generate_process_outcome rand s other n = Except.ok (generate_process rand s other n)
      ∧ written s (generate_process rand s n other) =
          [rand s.next % 256] ++ [n % 65536 / 256, n % 65536 % 256]
            ++ randomBytes rand (s.next + 1) n
            ++ bigEndian16 other ++ randomBytes rand (s.next + 1 + n) other ++ [0xFF]
      ∧ written s (generate_process rand s other n) =
          [rand s.next % 256] ++ bigEndian16 other ++ randomBytes rand (s.next + 1) other
            ++ [n % 65536 / 256, n % 65536 % 256]
            ++ randomBytes rand (s.next + 1 + other) n ++ [0xFF]
      ∧ (randomBytes rand (s.next + 1) n).length = n
      ∧ (randomBytes rand (s.next + 1 + other) n).length = n
      ∧ 256 * (n % 65536 / 256) + n % 65536 % 256 = n % 65536
      ∧ n % 65536 ≠ n := by
  have hb : bigEndian16 n = [n % 65536 / 256, n % 65536 % 256] := by
    unfold bigEndian16
    congr 1
    · omega
    · congr 1
      omega
  refine ⟨rfl, rfl, ?_, ?_, randomBytes_length _ _ _, randomBytes_length _ _ _, by omega,
    by omega⟩
  · rw [written_generate_process]
    simp only [recordLayout, randomBytes_length, hb]
  · rw [written_generate_process]
    simp only [recordLayout, randomBytes_length, hb]

/-- Instance of C16: a code length of 65536. -/
theorem oversized_length_truncated_witness :
    (65536 : Nat) ≤ 65536 ∧
      generate_process_outcome sampleRand (fresh 0) ((65536 : Nat) : Int) ((0 : Nat) : Int) =
        Except.ok (generate_process sampleRand (fresh 0) ((65536 : Nat) : Int) ((0 : Nat) : Int))
      ∧ 65536 % 65536 ≠ 65536 :=
  ⟨by decide, (oversized_length_truncated sampleRand (fresh 0) 0 65536 (by decide)).1,
    (oversized_length_truncated sampleRand (fresh 0) 0 65536 (by decide)).2.2.2.2.2.2.2⟩

theorem recordLayout_length_bytes (id : Nat) (code data : List Nat) :
    (recordLayout id code data)[1]? = some (code.length / 256 % 256)
      ∧ (recordLayout id code data)[2]? = some (code.length % 256) := by
  simp [recordLayout, bigEndian16]

/-- C18: the last byte of the binary output is `0xFF` for every input, and the
value `0xFF` is not reserved for it: an id drawn as 511, a code byte drawn as
255, a length of 255 (low byte) and a length of 65280 (high byte) each put a
byte `0xFF` before the final byte, where a scan for the first `0xFF` stops. -/
theorem end_marker_not_reserved (rand : Nat → Nat) (s : Sinks) (code_size data_size : Int) :
    (generate_process rand s code_size data_size).binary.getLast? = some 0xFF
      ∧ (generate_process (fun _ => 511) (fresh 0) 0 0).binary = [0xFF, 0, 0, 0, 0, 0xFF]
      ∧ List.indexOf 0xFF (generate_process (fun _ => 511) (fresh 0) 0 0).binary = 0
      ∧ (generate_process (fun k => if k = 1 then 255 else 0) (fresh 0) 1 0).binary
          = [0, 0, 1, 0xFF, 0, 0, 0xFF]
      ∧ List.indexOf 0xFF
          (generate_process (fun k => if k = 1 then 255 else 0) (fresh 0) 1 0).binary = 3
      ∧ ((generate_process (fun _ => 0) (fresh 0) ((255 : Nat) : Int) ((0 : Nat) : Int)).binary[2]?
            = some 0xFF
          ∧ 2 + 1 <
            (generate_process (fun _ => 0) (fresh 0) ((255 : Nat) : Int) ((0 : Nat) : Int)).binary.length)
      ∧ ((generate_process (fun _ => 0) (fresh 0) ((65280 : Nat) : Int) ((0 : Nat) : Int)).binary[1]?
            = some 0xFF
          ∧ 1 + 1 <
            (generate_process (fun _ => 0) (fresh 0) ((65280 : Nat) : Int)
              ((0 : Nat) : Int)).binary.length) := by
  refine ⟨?_, by decide, by decide, by decide, by decide, ⟨?_, ?_⟩, ⟨?_, ?_⟩⟩
  · rw [generate_process_binary_eq, ← List.append_assoc, List.getLast?_concat]
  · rw [binary_eq_recordLayout, show (fresh 0).binary = [] from rfl, List.nil_append,
      (recordLayout_length_bytes _ _ _).2, randomBytes_length]
  · rw [binary_length_nat]
    decide
  · rw [binary_eq_recordLayout, show (fresh 0).binary = [] from rfl, List.nil_append,
      (recordLayout_length_bytes _ _ _).1, randomBytes_length]
  · rw [binary_length_nat]
    decide

end ProcessGenerator
